import Mathlib

/-
Verification of the FlowLogsAnalyzer pipeline (src/main.py).

The program parses a flow-log CSV and a tag-mapping CSV, joins flow
records against the tag table on (destination port, lowercase protocol
name), and writes a three-section report.  Files are modelled as lists
of lines (without trailing newlines - both line transforms in the source
strip whitespace, so this loses nothing), Python strings as String,
Python int as Int, and the generators as total functions returning the
fully materialised record list together with the counters and the log
entries they emit.
-/

namespace FlowLogs

/-- Whitespace removed by str.strip(): space, tab, newline, carriage
return, vertical tab and form feed. -/
def isPySpace (c : Char) : Bool :=
  c = ' ' || c = '\t' || c = '\n' || c = '\r' || c = '\x0b' || c = '\x0c'

/-- Models str.strip() on the character list of a string. -/
def trimChars (l : List Char) : List Char :=
  ((l.dropWhile isPySpace).reverse.dropWhile isPySpace).reverse

/-- Models line.strip(). -/
def pyStrip (s : String) : String := String.mk (trimChars s.data)

/-- Models str.lower() on the ASCII text this program handles:
Char.toLower lowercases exactly the letters A-Z, which is how
str.lower() acts on ASCII input. -/
def pyLower (s : String) : String := String.mk (s.data.map Char.toLower)

/-- Models str.split(sep) for a one-character separator: splits at every
occurrence of the separator, keeping empty parts, so the result always
has one more part than there are separators. -/
def splitChars (sep : Char) : List Char → List (List Char)
  | [] => [[]]
  | c :: cs =>
    match splitChars sep cs with
    | [] => [[]]
    | p :: ps => if c = sep then [] :: p :: ps else (c :: p) :: ps

/-- Models line.split(","), the split genFields performs. -/
def pySplit (s : String) : List String := (splitChars ',' s.data).map String.mk

/-- Value of a list of decimal digit characters. -/
def digitsVal (l : List Char) : Nat :=
  l.foldl (fun a c => a * 10 + (c.toNat - 48)) 0

/-- Models int(s) on the decimal literals this pipeline sees: optional
surrounding whitespace, an optional leading minus sign, then one or more
ASCII digits; anything else raises ValueError, modelled as none. -/
def parsePyInt (s : String) : Option Int :=
  match trimChars s.data with
  | '-' :: rest =>
    if !rest.isEmpty && rest.all Char.isDigit then some (-(digitsVal rest : Int)) else none
  | l =>
    if !l.isEmpty && l.all Char.isDigit then some ((digitsVal l : Int)) else none

/-- IANA protocol-number enum of main.py lines 18-23; the textual enum
values are the protocol codes. -/
inductive IANAProtocolNum
  | ICMP
  | IPv4
  | TCP
  | UDP
  | IPv6
deriving DecidableEq, Repr

/-- Enum value lookup IANAProtocolNum(v): accepts exactly the declared
value strings "1", "4", "6", "17", "41" and raises (none) otherwise. -/
def IANAProtocolNum.ofValue : String → Option IANAProtocolNum
  | "1" => some .ICMP
  | "4" => some .IPv4
  | "6" => some .TCP
  | "17" => some .UDP
  | "41" => some .IPv6
  | _ => none

/-- Member name exactly as Python str() renders it after the class-name
prefix "IANAProtocolNum.". -/
def IANAProtocolNum.memberName : IANAProtocolNum → String
  | .ICMP => "ICMP"
  | .IPv4 => "IPv4"
  | .TCP => "TCP"
  | .UDP => "UDP"
  | .IPv6 => "IPv6"

/-- Action enum of main.py lines 26-29 (values "ACCEPT", "REJECT", "-"). -/
inductive Action
  | ACCEPT
  | REJECT
  | UNKNOWN
deriving DecidableEq, Repr

/-- Enum value lookup Action(v). -/
def Action.ofValue : String → Option Action
  | "ACCEPT" => some .ACCEPT
  | "REJECT" => some .REJECT
  | "-" => some .UNKNOWN
  | _ => none

/-- LogStatus enum of main.py lines 30-33 (values "OK", "NODATA",
"SKIPDATA"). -/
inductive LogStatus
  | ACCEPT
  | REJECT
  | UNKNOWN
deriving DecidableEq, Repr

/-- Enum value lookup LogStatus(v). -/
def LogStatus.ofValue : String → Option LogStatus
  | "OK" => some .ACCEPT
  | "NODATA" => some .REJECT
  | "SKIPDATA" => some .UNKNOWN
  | _ => none

/-- Flow-log record dataclass of main.py lines 34-49, field for field. -/
structure FlowLogRecordV2 where
  version : Int
  accountId : String
  interfaceId : String
  srcAddr : String
  dstAddr : String
  srcPort : Int
  dstPort : Int
  protocol : IANAProtocolNum
  packets : Int
  numBytes : Int
  startTimeSecs : Int
  endTimeSecs : Int
  action : Action
  logStatus : LogStatus
deriving DecidableEq, Repr

/-- Tag-mapping record dataclass of main.py lines 51-55. -/
structure TagRecord where
  dstPort : Int
  protocol : String
  tag : String
deriving DecidableEq, Repr

/-- Field coercion FlowLogRecordV2(*[_typ(v) for _typ, v in zip(...)])
on a 14-field row: int fields through int(), enum fields through the
enum value lookup, string fields unchanged; any failing coercion raises,
modelled as none. -/
def coerceFlow : List String → Option FlowLogRecordV2
  | [v, acct, ifc, sa, da, sp, dp, pr, pk, nb, st, et, ac, ls] => do
    let v1 ← parsePyInt v
    let sp1 ← parsePyInt sp
    let dp1 ← parsePyInt dp
    let pr1 ← IANAProtocolNum.ofValue pr
    let pk1 ← parsePyInt pk
    let nb1 ← parsePyInt nb
    let st1 ← parsePyInt st
    let et1 ← parsePyInt et
    let ac1 ← Action.ofValue ac
    let ls1 ← LogStatus.ofValue ls
    some ⟨v1, acct, ifc, sa, da, sp1, dp1, pr1, pk1, nb1, st1, et1, ac1, ls1⟩
  | _ => none

/-- Field coercion TagRecord(*...) on a 3-field row: int(dstPort),
str(protocol), str(tag). -/
def coerceTag : List String → Option TagRecord
  | [dp, pr, tg] => do
    let dp1 ← parsePyInt dp
    some ⟨dp1, pr, tg⟩
  | _ => none

/-- Log severities the program uses. -/
inductive LogLevel
  | info
  | warning
deriving DecidableEq, Repr

/-- One emitted log entry. -/
structure LogEntry where
  level : LogLevel
  msg : String
deriving DecidableEq, Repr

/-- Models ",".join(parts). -/
def joinComma : List String → String
  | [] => ""
  | [s] => s
  | s :: rest => s ++ "," ++ joinComma rest

/-- Everything one run of the genRecord generator produces: the yielded
records, the ok and skipped counters of its summary line, and the log
entries in emission order. -/
structure ParseRun (α : Type) where
  records : List α
  ok : Nat
  skipped : Nat
  logs : List LogEntry
deriving DecidableEq, Repr

/-- Per-row loop of genRecord (main.py lines 78-88): a row with the
wrong field count is dropped with an info log and does not touch the
skip counter; a row whose coercion fails is dropped with a warning log
and counts as skipped; a coerced row is yielded and counted ok.  The
warning text in the source carries the exception after an ", Error:"
suffix, which the model omits. -/
def runParse (coerce : List String → Option α) (n : Nat) :
    List (List String) → ParseRun α
  | [] => ⟨[], 0, 0, []⟩
  | parts :: rest =>
    let out := runParse coerce n rest
    if parts.length ≠ n then
      ⟨out.records, out.ok, out.skipped,
        ⟨.info, "Skipping invalid record: " ++ joinComma parts⟩ :: out.logs⟩
    else
      match coerce parts with
      | some r => ⟨r :: out.records, out.ok + 1, out.skipped, out.logs⟩
      | none =>
        ⟨out.records, out.ok, out.skipped + 1,
          ⟨.warning, "Skipping line:" ++ joinComma parts⟩ :: out.logs⟩

/-- Summary log entry of main.py line 89. -/
def summaryEntry (clsName : String) (ok skipped : Nat) : LogEntry :=
  ⟨.info, "Completed parsing all " ++ clsName ++ " records. OK:" ++ toString ok
    ++ ",skipped:" ++ toString skipped ++ ",total:" ++ toString (skipped + ok)⟩

/-- Row stream of genFields (main.py lines 57-68): drop the header line,
then transform and split every remaining line. -/
def genFields (lineLambda : String → String) (lines : List String) :
    List (List String) :=
  match lines with
  | [] => []
  | _hdr :: rest => rest.map (fun l => pySplit (lineLambda l))

/-- Header log entry of main.py line 64; readline() on an empty file
returns the empty string. -/
def headerEntry (lines : List String) : LogEntry :=
  ⟨.info, "CSV Header:" ++ pyStrip (lines.headD "")⟩

/-- Full genRecord (main.py lines 70-89) composed with genFields, the
header, per-row and summary log entries in emission order. -/
def genRecord (coerce : List String → Option α) (n : Nat) (clsName : String)
    (lineLambda : String → String) (lines : List String) : ParseRun α :=
  let out := runParse coerce n (genFields lineLambda lines)
  ⟨out.records, out.ok, out.skipped,
    headerEntry lines :: out.logs ++ [summaryEntry clsName out.ok out.skipped]⟩

/-- Line transform for the tag-mapping file (main.py line 96): strip,
then lowercase the whole line. -/
def tagLineLambda (l : String) : String := pyLower (pyStrip l)

/-- Default line transform (main.py line 70): strip only. -/
def flowLineLambda (l : String) : String := pyStrip l

/-- Parse of the tag-mapping file. -/
def tagRun (lines : List String) : ParseRun TagRecord :=
  genRecord coerceTag 3 "TagRecord" tagLineLambda lines

/-- Parse of the flow-log file. -/
def flowRun (lines : List String) : ParseRun FlowLogRecordV2 :=
  genRecord coerceFlow 14 "FlowLogRecordV2" flowLineLambda lines

/-- Join key type: (destination port, protocol string). -/
abbrev TagKey := Int × String

/-- The tagMappings dict: key to (TagRecord, running count), in Python
dict insertion order. -/
abbrev TagTable := List (TagKey × (TagRecord × Nat))

/-- Python dict assignment d[k] = v: overwrites in place when the key
exists (keeping its position), otherwise appends the new key at the
end - insertion order is preserved. -/
def dictInsert (k : TagKey) (v : TagRecord × Nat) : TagTable → TagTable
  | [] => [(k, v)]
  | (k1, v1) :: rest =>
    if k1 = k then (k, v) :: rest else (k1, v1) :: dictInsert k v rest

/-- Dict membership and subscript lookup. -/
def lookupTab : TagTable → TagKey → Option (TagRecord × Nat)
  | [], _ => none
  | (k1, v) :: rest, k => if k1 = k then some v else lookupTab rest k

/-- Tag-table build loop of main.py lines 96-98, starting from table t. -/
def buildTagTableFrom (t : TagTable) : List TagRecord → TagTable
  | [] => t
  | r :: rs => buildTagTableFrom (dictInsert (r.dstPort, r.protocol) (r, 0) t) rs

/-- Tag table built from the parsed tag records. -/
def buildTagTable (rs : List TagRecord) : TagTable := buildTagTableFrom [] rs

/-- Bool test that pat heads the list. -/
def leadsWith : List Char → List Char → Bool
  | [], _ => true
  | _ :: _, [] => false
  | p :: ps, c :: cs => p == c && leadsWith ps cs

/-- Removes every occurrence of the nonempty pattern, left to right and
nonoverlapping, modelling str.replace(pat, "").  Fuel is the length of
the scanned list; every step consumes at least one character. -/
def removeAllAux (pat : List Char) : Nat → List Char → List Char
  | 0, _ => []
  | _ + 1, [] => []
  | fuel + 1, c :: cs =>
    if leadsWith pat (c :: cs) then
      removeAllAux pat fuel ((c :: cs).drop pat.length)
    else
      c :: removeAllAux pat fuel cs

/-- Models s.replace(pat, "") for a nonempty pattern. -/
def removeAll (pat : String) (s : String) : String :=
  String.mk (removeAllAux pat.data s.data.length s.data)

/-- Join-key protocol string of main.py line 102:
str(flowRecord.protocol).lower().replace("ianaprotocolnum.", "") where
str() renders the member as "IANAProtocolNum.<name>". -/
def protocolStr (p : IANAProtocolNum) : String :=
  removeAll "ianaprotocolnum." (pyLower (String.append "IANAProtocolNum." p.memberName))

/-- Join key of a flow record (main.py lines 102-104). -/
def flowKey (f : FlowLogRecordV2) : TagKey := (f.dstPort, protocolStr f.protocol)

/-- Counter increment tagMappings[key][COUNT] += 1. -/
def incrAt (k : TagKey) : TagTable → TagTable
  | [] => []
  | (k1, (r, c)) :: rest =>
    if k1 = k then (k1, (r, c + 1)) :: rest else (k1, (r, c)) :: incrAt k rest

/-- Flow aggregation loop of main.py lines 100-107: on a key hit the
matching counter is incremented, otherwise the untagged counter. -/
def aggregate : List FlowLogRecordV2 → TagTable → Nat → TagTable × Nat
  | [], t, u => (t, u)
  | f :: fs, t, u =>
    match lookupTab t (flowKey f) with
    | some _ => aggregate fs (incrAt (flowKey f) t) u
    | none => aggregate fs t (u + 1)

/-- The defaultdict(int) update tagCounts[tag] += count: accumulate into
the existing bucket, or append a new bucket at the end. -/
def addCount (tg : String) (c : Nat) : List (String × Nat) → List (String × Nat)
  | [] => [(tg, c)]
  | (t, n) :: rest =>
    if t = tg then (t, n + c) :: rest else (t, n) :: addCount tg c rest

/-- Per-tag total loop of main.py lines 110-113 over the table in key
order, carrying the accumulator. -/
def tagCountsAux (acc : List (String × Nat)) : TagTable → List (String × Nat)
  | [] => acc
  | (_, (r, c)) :: rest => tagCountsAux (addCount r.tag c acc) rest

/-- Per-tag totals, one bucket per distinct tag in first-seen order. -/
def tagCounts (t : TagTable) : List (String × Nat) := tagCountsAux [] t

/-- Output row f"\x7btag\x7d,\x7bcount\x7d" of main.py line 117. -/
def fmtTagRow (p : String × Nat) : String := p.1 ++ "," ++ toString p.2

/-- Output row f"\x7bdstPort\x7d,\x7bprotocolStr\x7d,\x7bcount\x7d" of
main.py line 121. -/
def fmtKeyRow (e : TagKey × (TagRecord × Nat)) : String :=
  toString e.1.1 ++ "," ++ e.1.2 ++ "," ++ toString e.2.2

/-- Report writer of main.py lines 109-123: the exact sequence of lines
written to the output file. -/
def report (t : TagTable) (u : Nat) : List String :=
  "Tag,Count" :: (tagCounts t).map fmtTagRow
    ++ "Port,Protocol,Count" :: t.map fmtKeyRow
    ++ ["Untagged," ++ toString u]

/-- Final state of one pipeline run: the aggregated table, the untagged
counter and the written output lines. -/
structure RunResult where
  table : TagTable
  untagged : Nat
  output : List String
deriving DecidableEq, Repr

/-- End-to-end pipeline main(flowlogsPath, tagMappingsPath, outputPath)
of main.py lines 91-123, with each file given as its list of lines. -/
def runMain (tagLines flowLines : List String) : RunResult :=
  let t0 := buildTagTable (tagRun tagLines).records
  let out := aggregate (flowRun flowLines).records t0 0
  ⟨out.1, out.2, report out.1 out.2⟩

/-- Usage text printed by usage() (main.py lines 124-125). -/
def usageMsg : String :=
  "python3 main.py <PATH_TO_FLOW_LOGS.csv> <PATH_TO_TAG_MAPPINGS.csv> <PATH_TO_OUTPUT.csv>"

/-- Outcome of the entry-point guard: either the usage text is printed
and the process exits with the given status without the pipeline (and
hence any file I/O) being invoked, or the pipeline runs on the three
paths. -/
inductive CliOutcome
  | usageExit (printed : String) (status : Nat)
  | run (flowlogsPath tagMappingsPath outputPath : String)
deriving DecidableEq, Repr

/-- Entry-point guard of main.py lines 127-131: sys.argv is the program
name followed by the positional arguments, and main runs only when
len(sys.argv) == 4. -/
def cliMain : List String → CliOutcome
  | [_, a, b, c] => .run a b c
  | _ => .usageExit usageMsg 1

/-- Sum of every per-key counter of the table. -/
def sumCounts : TagTable → Nat
  | [] => 0
  | (_, (_, c)) :: rest => c + sumCounts rest

/-- Counter stored at a key, 0 when the key is absent. -/
def countAt (t : TagTable) (k : TagKey) : Nat :=
  match lookupTab t k with
  | some rc => rc.2
  | none => 0

/-- All counters of the table are zero. -/
def allCountsZero (t : TagTable) : Prop := ∀ e ∈ t, e.2.2 = 0

/-- Lookup in a per-tag total list. -/
def lookupStr : List (String × Nat) → String → Option Nat
  | [], _ => none
  | (t, n) :: rest, tg => if t = tg then some n else lookupStr rest tg

/-- Whether some table entry carries this tag. -/
def tagMem (tg : String) : TagTable → Bool
  | [] => false
  | (_, (r, _)) :: rest => r.tag == tg || tagMem tg rest

/-- Sum of the counters of every table entry carrying this tag. -/
def sumFor (tg : String) : TagTable → Nat
  | [] => 0
  | (_, (r, c)) :: rest => (if r.tag = tg then c else 0) + sumFor tg rest

/-- Number of warning-level entries in a log. -/
def warnCount (logs : List LogEntry) : Nat :=
  logs.countP (fun e => e.level == LogLevel.warning)

/-- Bool test that an entry's message begins with the given text. -/
def msgLeads (pre : String) (e : LogEntry) : Bool := leadsWith pre.data e.msg.data

/-- Number of "Skipping invalid record:" entries in a log - the entries
the field-count check of main.py line 80 emits. -/
def infoSkipCount (logs : List LogEntry) : Nat :=
  logs.countP (msgLeads "Skipping invalid record: ")

/-- Every character of the string is fixed by lowercasing. -/
def isLowered (s : String) : Prop := ∀ c ∈ s.data, Char.toLower c = c

/-- Outcome of one flow-log data line in genRecord: the record it
yields, or none when the field count is not 14 or a coercion fails. -/
def flowLineRecord (line : String) : Option FlowLogRecordV2 :=
  if (pySplit (flowLineLambda line)).length = 14 then
    coerceFlow (pySplit (flowLineLambda line))
  else none

/-- The five protocol strings str() can produce for the declared enum
members. -/
def canonicalProtocolNames : List String := ["icmp", "ipv4", "tcp", "udp", "ipv6"]

/-! ### Helper lemmas about the tag table -/

/-- String append acts as list append on the character data. -/
theorem data_append (s t : String) : (s ++ t).data = s.data ++ t.data := rfl

/-- An entry of the table after a dict assignment is the assigned pair
or an entry that was already present. -/
theorem mem_dictInsert (t : TagTable) (k : TagKey) (v : TagRecord × Nat)
    (e : TagKey × (TagRecord × Nat)) (he : e ∈ dictInsert k v t) :
    e = (k, v) ∨ e ∈ t := by
  induction t with
  | nil =>
    simp only [dictInsert, List.mem_singleton] at he
    exact Or.inl he
  | cons e0 rest ih =>
    obtain ⟨k1, v1⟩ := e0
    by_cases hk : k1 = k
    · simp only [dictInsert, if_pos hk] at he
      rcases List.mem_cons.mp he with h | h
      · exact Or.inl h
      · exact Or.inr (List.mem_cons_of_mem _ h)
    · simp only [dictInsert, if_neg hk] at he
      rcases List.mem_cons.mp he with h | h
      · exact Or.inr (by simp [h])
      · rcases ih h with h2 | h2
        · exact Or.inl h2
        · exact Or.inr (List.mem_cons_of_mem _ h2)

/-- An entry of the table after a counter increment was already present,
or is the entry at the incremented key with its counter bumped. -/
theorem mem_incrAt (t : TagTable) (k : TagKey) (e : TagKey × (TagRecord × Nat))
    (he : e ∈ incrAt k t) :
    e ∈ t ∨ ∃ r c, e = (k, (r, c + 1)) ∧ (k, (r, c)) ∈ t := by
  induction t with
  | nil => simp [incrAt] at he
  | cons e0 rest ih =>
    obtain ⟨k1, r1, c1⟩ := e0
    by_cases hk : k1 = k
    · simp only [incrAt, if_pos hk] at he
      rcases List.mem_cons.mp he with h | h
      · subst hk
        exact Or.inr ⟨r1, c1, h, List.mem_cons_self _ _⟩
      · exact Or.inl (List.mem_cons_of_mem _ h)
    · simp only [incrAt, if_neg hk] at he
      rcases List.mem_cons.mp he with h | h
      · exact Or.inl (by simp [h])
      · rcases ih h with h2 | ⟨r, c, h3, h4⟩
        · exact Or.inl (List.mem_cons_of_mem _ h2)
        · exact Or.inr ⟨r, c, h3, List.mem_cons_of_mem _ h4⟩

/-- Looking up the key just assigned returns the assigned value. -/
theorem lookupTab_dictInsert_self (t : TagTable) (k : TagKey) (v : TagRecord × Nat) :
    lookupTab (dictInsert k v t) k = some v := by
  induction t with
  | nil => simp [dictInsert, lookupTab]
  | cons e0 rest ih =>
    obtain ⟨k1, v1⟩ := e0
    by_cases hk : k1 = k
    · simp [dictInsert, if_pos hk, lookupTab]
    · simp [dictInsert, if_neg hk, lookupTab, hk, ih]

/-- Assigning one key leaves lookups of other keys unchanged. -/
theorem lookupTab_dictInsert_ne (t : TagTable) (k k1 : TagKey) (v : TagRecord × Nat)
    (h : k1 ≠ k) : lookupTab (dictInsert k v t) k1 = lookupTab t k1 := by
  induction t with
  | nil => simp [dictInsert, lookupTab, Ne.symm h]
  | cons e0 rest ih =>
    obtain ⟨k2, v2⟩ := e0
    by_cases hk : k2 = k
    · subst hk
      simp [dictInsert, lookupTab, Ne.symm h]
    · simp [dictInsert, if_neg hk, lookupTab, ih]

/-- Incrementing a present key bumps exactly its counter. -/
theorem lookupTab_incrAt_self (t : TagTable) (k : TagKey) (r : TagRecord) (c : Nat)
    (h : lookupTab t k = some (r, c)) :
    lookupTab (incrAt k t) k = some (r, c + 1) := by
  induction t with
  | nil => simp [lookupTab] at h
  | cons e0 rest ih =>
    obtain ⟨k1, r1, c1⟩ := e0
    by_cases hk : k1 = k
    · simp only [lookupTab, if_pos hk] at h
      simp only [incrAt, if_pos hk, lookupTab, if_pos hk]
      simp_all
    · simp only [lookupTab, if_neg hk] at h
      simp only [incrAt, if_neg hk, lookupTab, if_neg hk]
      exact ih h

/-- Incrementing one key leaves lookups of other keys unchanged. -/
theorem lookupTab_incrAt_ne (t : TagTable) (k k1 : TagKey)
    (h : k1 ≠ k) : lookupTab (incrAt k t) k1 = lookupTab t k1 := by
  induction t with
  | nil => simp [incrAt]
  | cons e0 rest ih =>
    obtain ⟨k2, r2, c2⟩ := e0
    by_cases hk : k2 = k
    · subst hk
      simp [incrAt, lookupTab, Ne.symm h]
    · simp only [incrAt, if_neg hk, lookupTab, ih]

/-- Incrementing a present key grows the counter total by one. -/
theorem sumCounts_incrAt (t : TagTable) (k : TagKey) (v : TagRecord × Nat)
    (h : lookupTab t k = some v) : sumCounts (incrAt k t) = sumCounts t + 1 := by
  induction t with
  | nil => simp [lookupTab] at h
  | cons e0 rest ih =>
    obtain ⟨k1, r1, c1⟩ := e0
    by_cases hk : k1 = k
    · simp only [incrAt, if_pos hk, sumCounts]
      omega
    · simp only [lookupTab, if_neg hk] at h
      simp only [incrAt, if_neg hk, sumCounts, ih h]
      omega

/-- Each aggregated flow record adds exactly one to the counter total
plus the untagged counter. -/
theorem aggregate_sum (fs : List FlowLogRecordV2) (t : TagTable) (u : Nat) :
    sumCounts (aggregate fs t u).1 + (aggregate fs t u).2
      = sumCounts t + u + fs.length := by
  induction fs generalizing t u with
  | nil => simp [aggregate]
  | cons f fs ih =>
    cases hl : lookupTab t (flowKey f) with
    | some v =>
      simp only [aggregate, hl, ih, sumCounts_incrAt t _ v hl, List.length_cons]
      omega
    | none =>
      simp only [aggregate, hl, ih, List.length_cons]
      omega

/-- The build loop keeps every counter at zero. -/
theorem allCountsZero_buildFrom (rs : List TagRecord) (t : TagTable)
    (h : allCountsZero t) : allCountsZero (buildTagTableFrom t rs) := by
  induction rs generalizing t with
  | nil => exact h
  | cons r rs ih =>
    apply ih
    intro e he
    rcases mem_dictInsert t _ _ e he with h1 | h1
    · simp [h1]
    · exact h e h1

/-- A table of zero counters has counter total zero. -/
theorem sumCounts_eq_zero (t : TagTable) (h : allCountsZero t) : sumCounts t = 0 := by
  induction t with
  | nil => rfl
  | cons e0 rest ih =>
    obtain ⟨k, r, c⟩ := e0
    have h0 : c = 0 := h (k, (r, c)) (List.mem_cons_self _ _)
    simp only [sumCounts, h0, Nat.zero_add]
    exact ih fun x hx => h x (List.mem_cons_of_mem _ hx)

/-- Aggregating against the empty table counts every record untagged. -/
theorem aggregate_nil_table (fs : List FlowLogRecordV2) (u : Nat) :
    aggregate fs [] u = ([], u + fs.length) := by
  induction fs generalizing u with
  | nil => simp [aggregate]
  | cons f fs ih =>
    have harith : u + 1 + fs.length = u + (fs.length + 1) := by omega
    simp only [aggregate, lookupTab, ih, List.length_cons, harith]

/-! ### Helper lemmas about the record parser -/

/-- The records a parse yields are exactly the rows of the right field
count whose coercion succeeds, in order. -/
theorem runParse_records {α : Type} (coerce : List String → Option α) (n : Nat)
    (pl : List (List String)) :
    (runParse coerce n pl).records
      = pl.filterMap (fun p => if p.length = n then coerce p else none) := by
  induction pl with
  | nil => rfl
  | cons parts rest ih =>
    by_cases h : parts.length = n
    · cases hc : coerce parts with
      | some r => simp [runParse, h, hc, List.filterMap_cons, ih]
      | none => simp [runParse, h, hc, List.filterMap_cons, ih]
    · simp [runParse, h, List.filterMap_cons, ih]

/-- The ok counter counts exactly the yielded records. -/
theorem runParse_ok {α : Type} (coerce : List String → Option α) (n : Nat)
    (pl : List (List String)) :
    (runParse coerce n pl).ok = (runParse coerce n pl).records.length := by
  induction pl with
  | nil => rfl
  | cons parts rest ih =>
    by_cases h : parts.length = n
    · cases hc : coerce parts with
      | some r => simp [runParse, h, hc, ih]
      | none => simp [runParse, h, hc, ih]
    · simp [runParse, h, ih]

/-- The skip counter counts exactly the rows of the right field count
whose coercion fails; rows of the wrong field count are not in it. -/
theorem runParse_skipped {α : Type} (coerce : List String → Option α) (n : Nat)
    (pl : List (List String)) :
    (runParse coerce n pl).skipped
      = pl.countP (fun p => p.length == n && (coerce p).isNone) := by
  induction pl with
  | nil => rfl
  | cons parts rest ih =>
    by_cases h : parts.length = n
    · cases hc : coerce parts with
      | some r => simp [runParse, h, hc, ih, List.countP_cons]
      | none => simp [runParse, h, hc, ih, List.countP_cons]
    · simp [runParse, h, ih, List.countP_cons]

/-- A list is a leading segment of itself followed by anything. -/
theorem leadsWith_self_append (l m : List Char) : leadsWith l (l ++ m) = true := by
  induction l with
  | nil => rfl
  | cons c cs ih => simp [leadsWith, ih]

/-- The per-row info entry for a wrong field count matches the
"Skipping invalid record:" discriminator. -/
theorem msgLeads_infoSkip (parts : List String) :
    msgLeads "Skipping invalid record: "
      ⟨.info, "Skipping invalid record: " ++ joinComma parts⟩ = true := by
  simp only [msgLeads, data_append]
  exact leadsWith_self_append _ _

/-- The per-row warning entry for a failed coercion does not match the
"Skipping invalid record:" discriminator. -/
theorem msgLeads_warn_false (s : String) :
    msgLeads "Skipping invalid record: " ⟨.warning, "Skipping line:" ++ s⟩ = false := by
  simp only [msgLeads, data_append]
  rfl

/-- The header entry does not match the "Skipping invalid record:"
discriminator. -/
theorem msgLeads_header_false (lines : List String) :
    msgLeads "Skipping invalid record: " (headerEntry lines) = false := by
  simp only [msgLeads, headerEntry, data_append]
  rfl

/-- The summary entry does not match the "Skipping invalid record:"
discriminator. -/
theorem msgLeads_summary_false (cls : String) (a b : Nat) :
    msgLeads "Skipping invalid record: " (summaryEntry cls a b) = false := by
  simp only [msgLeads, summaryEntry, data_append]
  rfl

/-- Warnings in the per-row log are exactly the skipped rows. -/
theorem runParse_warnCount {α : Type} (coerce : List String → Option α) (n : Nat)
    (pl : List (List String)) :
    warnCount (runParse coerce n pl).logs = (runParse coerce n pl).skipped := by
  induction pl with
  | nil => rfl
  | cons parts rest ih =>
    by_cases h : parts.length = n
    · cases hc : coerce parts with
      | some r => simpa [runParse, h, hc, warnCount] using ih
      | none => simpa [runParse, h, hc, warnCount, List.countP_cons] using ih
    · simpa [runParse, h, warnCount, List.countP_cons] using ih

/-- The "Skipping invalid record:" entries of the per-row log are
exactly the rows with the wrong field count. -/
theorem runParse_infoSkipCount {α : Type} (coerce : List String → Option α) (n : Nat)
    (pl : List (List String)) :
    infoSkipCount (runParse coerce n pl).logs = pl.countP (fun p => p.length != n) := by
  induction pl with
  | nil => rfl
  | cons parts rest ih =>
    by_cases h : parts.length = n
    · cases hc : coerce parts with
      | some r => simpa [runParse, h, hc, infoSkipCount, List.countP_cons] using ih
      | none =>
        simpa [runParse, h, hc, infoSkipCount, List.countP_cons, msgLeads_warn_false] using ih
    · simpa [runParse, h, infoSkipCount, List.countP_cons, msgLeads_infoSkip] using ih

/-- Every declared protocol member renders to one of the five canonical
lowercase names. -/
theorem protocolStr_mem (p : IANAProtocolNum) :
    protocolStr p ∈ canonicalProtocolNames := by
  cases p <;> decide

/-- Entries whose protocol component lies outside the canonical set keep
a zero counter through the whole aggregation pass. -/
theorem aggregate_outside_zero (fs : List FlowLogRecordV2) (t : TagTable) (u : Nat)
    (h : ∀ e ∈ t, e.1.2 ∉ canonicalProtocolNames → e.2.2 = 0) :
    ∀ e ∈ (aggregate fs t u).1, e.1.2 ∉ canonicalProtocolNames → e.2.2 = 0 := by
  induction fs generalizing t u with
  | nil => exact h
  | cons f fs ih =>
    cases hl : lookupTab t (flowKey f) with
    | some v =>
      simp only [aggregate, hl]
      apply ih
      intro e he hp
      rcases mem_incrAt t _ e he with h1 | ⟨r, c, he2, h3⟩
      · exact h e h1 hp
      · exfalso
        apply hp
        rw [he2]
        exact protocolStr_mem f.protocol
    | none =>
      simp only [aggregate, hl]
      exact ih t (u + 1) h

/-- The build loop processes an appended record list in two stages. -/
theorem buildTagTableFrom_append (t : TagTable) (xs ys : List TagRecord) :
    buildTagTableFrom t (xs ++ ys) = buildTagTableFrom (buildTagTableFrom t xs) ys := by
  induction xs generalizing t with
  | nil => rfl
  | cons r rs ih => simp [buildTagTableFrom, ih]

/-- Building from records none of which carries the key leaves that
key's lookup unchanged. -/
theorem lookupTab_buildFrom_no_key (rs : List TagRecord) (t : TagTable) (k : TagKey)
    (h : ∀ r ∈ rs, (r.dstPort, r.protocol) ≠ k) :
    lookupTab (buildTagTableFrom t rs) k = lookupTab t k := by
  induction rs generalizing t with
  | nil => rfl
  | cons r rs ih =>
    simp only [buildTagTableFrom]
    rw [ih _ (fun x hx => h x (List.mem_cons_of_mem _ hx))]
    exact lookupTab_dictInsert_ne t _ _ _ (Ne.symm (h r (List.mem_cons_self _ _)))

/-- Accumulating into a tag's bucket makes its lookup the old value
plus the addition. -/
theorem lookupStr_addCount_self (acc : List (String × Nat)) (tg : String) (c : Nat) :
    lookupStr (addCount tg c acc) tg = some ((lookupStr acc tg).getD 0 + c) := by
  induction acc with
  | nil => simp [addCount, lookupStr]
  | cons p rest ih =>
    obtain ⟨t, n⟩ := p
    by_cases h : t = tg
    · simp [addCount, h, lookupStr]
    · simp [addCount, h, lookupStr, ih]

/-- Accumulating into one tag's bucket leaves other lookups unchanged. -/
theorem lookupStr_addCount_ne (acc : List (String × Nat)) (tg tg1 : String) (c : Nat)
    (h : tg1 ≠ tg) :
    lookupStr (addCount tg c acc) tg1 = lookupStr acc tg1 := by
  induction acc with
  | nil => simp [addCount, lookupStr, Ne.symm h]
  | cons p rest ih =>
    obtain ⟨t, n⟩ := p
    by_cases ht : t = tg
    · subst ht
      simp [addCount, lookupStr, Ne.symm h]
    · by_cases ht1 : t = tg1
      · simp [addCount, ht, lookupStr, ht1, h]
      · simp [addCount, ht, lookupStr, ht1, ih]

/-- The per-tag total loop computes, for every tag, the accumulator's
bucket plus the summed counters of the table entries carrying the tag. -/
theorem lookupStr_tagCountsAux (t : TagTable) (acc : List (String × Nat)) (tg : String) :
    lookupStr (tagCountsAux acc t) tg
      = if (lookupStr acc tg).isSome || tagMem tg t then
          some ((lookupStr acc tg).getD 0 + sumFor tg t)
        else none := by
  induction t generalizing acc with
  | nil =>
    simp only [tagCountsAux, sumFor, tagMem, Bool.or_false]
    cases h : lookupStr acc tg <;> simp [h]
  | cons e rest ih =>
    obtain ⟨k, r, c⟩ := e
    simp only [tagCountsAux]
    rw [ih]
    by_cases hrt : r.tag = tg
    · simp only [tagMem, sumFor, hrt, lookupStr_addCount_self, Option.isSome_some,
        Option.getD_some, beq_self_eq_true, Bool.true_or, Bool.or_true, if_true]
      rw [Nat.add_assoc]
    · rw [lookupStr_addCount_ne acc r.tag tg c (Ne.symm hrt)]
      simp [tagMem, sumFor, hrt]

/-- The per-tag totals of the report: a tag looks up to the sum of the
counters of the table entries carrying it, and to nothing when no entry
carries it. -/
theorem lookupStr_tagCounts (t : TagTable) (tg : String) :
    lookupStr (tagCounts t) tg = if tagMem tg t then some (sumFor tg t) else none := by
  have h := lookupStr_tagCountsAux t [] tg
  simpa [tagCounts, lookupStr] using h

/-- Accumulating into a bucket keeps the existing key list, or appends
the new tag at the end when it is fresh. -/
theorem addCount_keys (acc : List (String × Nat)) (tg : String) (c : Nat) :
    (addCount tg c acc).map Prod.fst
      = if tg ∈ acc.map Prod.fst then acc.map Prod.fst
        else acc.map Prod.fst ++ [tg] := by
  induction acc with
  | nil => simp [addCount]
  | cons p rest ih =>
    obtain ⟨t, n⟩ := p
    by_cases h : t = tg
    · simp [addCount, h]
    · simp only [addCount, if_neg h, List.map_cons, ih, List.mem_cons]
      by_cases h2 : tg ∈ rest.map Prod.fst <;>
        simp [h2, Ne.symm h, List.cons_append]

/-- The per-tag total loop keeps the bucket keys duplicate-free. -/
theorem tagCountsAux_keys_nodup (t : TagTable) (acc : List (String × Nat))
    (h : (acc.map Prod.fst).Nodup) : ((tagCountsAux acc t).map Prod.fst).Nodup := by
  induction t generalizing acc with
  | nil => exact h
  | cons e rest ih =>
    obtain ⟨k, r, c⟩ := e
    apply ih
    rw [addCount_keys]
    by_cases h2 : r.tag ∈ acc.map Prod.fst
    · simpa [h2] using h
    · simp [h2, List.nodup_append, h, List.disjoint_singleton]

/-- Converting a valid code point to a character and back is the
identity. -/
theorem charOfNat_toNat (n : Nat) (h : n.isValidChar) : (Char.ofNat n).toNat = n := by
  simp only [Char.ofNat, dif_pos h, Char.ofNatAux, Char.toNat, UInt32.toNat]
  exact BitVec.toNat_ofNatLt ..

/-- Unfolding equation for Char.toLower. -/
theorem toLower_eq (c : Char) :
    Char.toLower c
      = if c.toNat ≥ 65 ∧ c.toNat ≤ 90 then Char.ofNat (c.toNat + 32) else c := rfl

/-- Lowercasing is idempotent. -/
theorem toLower_idem (c : Char) :
    Char.toLower (Char.toLower c) = Char.toLower c := by
  by_cases h : c.toNat ≥ 65 ∧ c.toNat ≤ 90
  · have hv : (c.toNat + 32).isValidChar := Or.inl (by omega)
    have ht : (Char.toLower c).toNat = c.toNat + 32 := by
      rw [toLower_eq, if_pos h, charOfNat_toNat _ hv]
    rw [toLower_eq (Char.toLower c), ht, if_neg (by omega)]
  · have hc : Char.toLower c = c := by rw [toLower_eq, if_neg h]
    rw [hc, hc]

/-- A split never produces the empty part list. -/
theorem splitChars_ne_nil (sep : Char) (l : List Char) : splitChars sep l ≠ [] := by
  induction l with
  | nil => simp [splitChars]
  | cons c cs ih =>
    simp only [splitChars]
    cases h : splitChars sep cs with
    | nil => simp
    | cons p ps => by_cases hc : c = sep <;> simp [hc]

/-- Every character of every part of a split occurs in the split
input. -/
theorem mem_splitChars (sep : Char) (l : List Char) (c : Char) :
    ∀ p, p ∈ splitChars sep l → c ∈ p → c ∈ l := by
  induction l with
  | nil =>
    intro p hp hc
    simp only [splitChars, List.mem_singleton] at hp
    rw [hp] at hc
    simp at hc
  | cons c0 cs ih =>
    intro p hp hc
    cases h : splitChars sep cs with
    | nil => exact absurd h (splitChars_ne_nil sep cs)
    | cons q qs =>
      simp only [splitChars, h] at hp
      by_cases hc0 : c0 = sep
      · rw [if_pos hc0] at hp
        rcases List.mem_cons.mp hp with h1 | h1
        · rw [h1] at hc
          simp at hc
        · exact List.mem_cons_of_mem _ (ih p (by rw [h]; exact h1) hc)
      · rw [if_neg hc0] at hp
        rcases List.mem_cons.mp hp with h1 | h1
        · rw [h1] at hc
          rcases List.mem_cons.mp hc with h2 | h2
          · rw [h2]; exact List.mem_cons_self _ _
          · exact List.mem_cons_of_mem _
              (ih q (by rw [h]; exact List.mem_cons_self _ _) h2)
        · exact List.mem_cons_of_mem _
            (ih p (by rw [h]; exact List.mem_cons_of_mem _ h1) hc)

/-- Every part of a split of a lowercased string is itself entirely
lowercase. -/
theorem isLowered_of_split_lower (s : String) (part : List Char)
    (hp : part ∈ splitChars ',' (pyLower s).data) :
    isLowered (String.mk part) := by
  intro c hc
  have h1 : c ∈ (pyLower s).data := mem_splitChars ',' _ c part hp hc
  simp only [pyLower] at h1
  rcases List.mem_map.mp h1 with ⟨c0, _, rfl⟩
  exact toLower_idem c0

/-- Shape of a successful tag-record coercion: three fields, the second
and third becoming the record's protocol and tag verbatim. -/
theorem coerceTag_shape (parts : List String) (r : TagRecord)
    (h : coerceTag parts = some r) :
    ∃ dp, parts = [dp, r.protocol, r.tag] := by
  rcases parts with _ | ⟨dp, _ | ⟨pr, _ | ⟨tg, _ | ⟨x, rest⟩⟩⟩⟩
  · simp [coerceTag] at h
  · simp [coerceTag] at h
  · simp [coerceTag] at h
  · cases hdp : parsePyInt dp with
    | none => simp [coerceTag, hdp] at h
    | some dv =>
      rw [show coerceTag [dp, pr, tg]
          = (parsePyInt dp).bind (fun dp1 => some ⟨dp1, pr, tg⟩) from rfl, hdp] at h
      have h3 : (⟨dv, pr, tg⟩ : TagRecord) = r := Option.some.inj h
      exact ⟨dp, by rw [← h3]⟩
  · simp [coerceTag] at h

/-- Every record the tag-mapping parse yields has an entirely lowercase
tag and protocol, because the whole line is lowercased before the
split. -/
theorem tagRun_fields_lowered (lines : List String) (r : TagRecord)
    (hr : r ∈ (tagRun lines).records) :
    isLowered r.tag ∧ isLowered r.protocol := by
  have h1 := runParse_records coerceTag 3 (genFields tagLineLambda lines)
  rw [show (tagRun lines).records = (runParse coerceTag 3 (genFields tagLineLambda lines)).records from rfl, h1] at hr
  rcases List.mem_filterMap.mp hr with ⟨parts, hmem, hsome⟩
  by_cases hlen : parts.length = 3
  swap
  · rw [if_neg hlen] at hsome
    cases hsome
  rw [if_pos hlen] at hsome
  obtain ⟨dp, hparts⟩ := coerceTag_shape parts r hsome
  cases lines with
  | nil => simp [genFields] at hmem
  | cons hd rest =>
    simp only [genFields] at hmem
    rcases List.mem_map.mp hmem with ⟨line, _, hline⟩
    rw [hparts] at hline
    -- hline : pySplit (pyLower (pyStrip line)) = [dp, r.protocol, r.tag]
    have hpr : r.protocol ∈ pySplit (tagLineLambda line) := by
      rw [hline]; simp
    have htg : r.tag ∈ pySplit (tagLineLambda line) := by
      rw [hline]; simp
    constructor
    · rcases List.mem_map.mp htg with ⟨chunk, hchunk, hmk⟩
      rw [← hmk]
      exact isLowered_of_split_lower (pyStrip line) chunk hchunk
    · rcases List.mem_map.mp hpr with ⟨chunk, hchunk, hmk⟩
      rw [← hmk]
      exact isLowered_of_split_lower (pyStrip line) chunk hchunk

/-- Lowercase tags survive the table build. -/
theorem build_tags_lowered (rs : List TagRecord) (t : TagTable)
    (ht : ∀ e ∈ t, isLowered e.2.1.tag) (hr : ∀ r ∈ rs, isLowered r.tag) :
    ∀ e ∈ buildTagTableFrom t rs, isLowered e.2.1.tag := by
  induction rs generalizing t with
  | nil => exact ht
  | cons r rs ih =>
    apply ih
    · intro e he
      rcases mem_dictInsert t _ _ e he with h1 | h1
      · rw [h1]
        exact hr r (List.mem_cons_self _ _)
      · exact ht e h1
    · exact fun x hx => hr x (List.mem_cons_of_mem _ hx)

/-- Lowercase tags survive aggregation: counters change but the stored
records do not. -/
theorem aggregate_tags_lowered (fs : List FlowLogRecordV2) (t : TagTable) (u : Nat)
    (h : ∀ e ∈ t, isLowered e.2.1.tag) :
    ∀ e ∈ (aggregate fs t u).1, isLowered e.2.1.tag := by
  induction fs generalizing t u with
  | nil => exact h
  | cons f fs ih =>
    cases hl : lookupTab t (flowKey f) with
    | some v =>
      simp only [aggregate, hl]
      apply ih
      intro e he
      rcases mem_incrAt t _ e he with h1 | ⟨r, c, he2, h3⟩
      · exact h e h1
      · rw [he2]
        exact h (flowKey f, (r, c)) h3
    | none =>
      simp only [aggregate, hl]
      exact ih t (u + 1) h

/-- Bucket keys of the per-tag totals are tags of table entries (or of
the accumulator). -/
theorem mem_addCount_key (acc : List (String × Nat)) (tg : String) (c : Nat)
    (p : String × Nat) (hp : p ∈ addCount tg c acc) :
    p.1 = tg ∨ p.1 ∈ acc.map Prod.fst := by
  induction acc with
  | nil =>
    simp only [addCount, List.mem_singleton] at hp
    exact Or.inl (by rw [hp])
  | cons q rest ih =>
    obtain ⟨t, n⟩ := q
    by_cases h : t = tg
    · simp only [addCount, if_pos h] at hp
      rcases List.mem_cons.mp hp with h1 | h1
      · exact Or.inl (by rw [h1, h])
      · exact Or.inr (by simp [List.mem_map]; exact Or.inr ⟨p.2, by simp [h1]⟩)
    · simp only [addCount, if_neg h] at hp
      rcases List.mem_cons.mp hp with h1 | h1
      · exact Or.inr (by rw [h1]; simp)
      · rcases ih h1 with h2 | h2
        · exact Or.inl h2
        · exact Or.inr (by simp [List.mem_cons]; right; simpa using h2)

/-- Lowercase tags make lowercase bucket keys in the per-tag totals. -/
theorem tagCountsAux_keys_lowered (t : TagTable) (acc : List (String × Nat))
    (hacc : ∀ p ∈ acc, isLowered p.1) (h : ∀ e ∈ t, isLowered e.2.1.tag) :
    ∀ p ∈ tagCountsAux acc t, isLowered p.1 := by
  induction t generalizing acc with
  | nil => exact hacc
  | cons e rest ih =>
    obtain ⟨k, r, c⟩ := e
    apply ih
    · intro p hp
      rcases mem_addCount_key acc r.tag c p hp with h1 | h1
      · rw [h1]
        exact h (k, (r, c)) (List.mem_cons_self _ _)
      · rcases List.mem_map.mp h1 with ⟨q, hq, hq1⟩
        rw [← hq1]
        exact hacc q hq
    · exact fun x hx => h x (List.mem_cons_of_mem _ hx)

/-! ### Claims -/

/-- C1: for every pair of input files, at the end of the aggregation
pass the sum of all per-key counters in the TagTable plus the untagged
counter equals the number of successfully parsed flow records (which is
also the parser's ok counter); each parsed record increments exactly one
counter by exactly one, which is what the counting argument uses. -/
theorem C1_round_trip_counting (tagLines flowLines : List String) :
    sumCounts (runMain tagLines flowLines).table + (runMain tagLines flowLines).untagged
      = (flowRun flowLines).records.length
    ∧ (flowRun flowLines).ok = (flowRun flowLines).records.length := by
  constructor
  · have hz : allCountsZero (buildTagTable (tagRun tagLines).records) :=
      allCountsZero_buildFrom _ _ (fun e he => absurd he (List.not_mem_nil e))
    have h0 := sumCounts_eq_zero _ hz
    have hs := aggregate_sum (flowRun flowLines).records
      (buildTagTable (tagRun tagLines).records) 0
    simp only [runMain]
    omega
  · exact runParse_ok coerceFlow 14 (genFields flowLineLambda flowLines)

/-- C2: for every successfully parsed flow record the aggregator joins
on (dstPort, lowercased canonical protocol name); a hit increments that
entry's counter by one and leaves the untagged counter alone, a miss
increments the untagged counter by one and leaves the table alone; the
protocol of code "6" renders as "tcp", and a mapping line written
"25,TCP,Email" is lowercased by the line transform so its key matches a
protocol-6 flow record. -/
theorem C2_join_semantics (f : FlowLogRecordV2) (t : TagTable) (u : Nat) :
    ((lookupTab t (flowKey f)).isSome = true →
        countAt (aggregate [f] t u).1 (flowKey f) = countAt t (flowKey f) + 1
        ∧ (aggregate [f] t u).2 = u)
    ∧ (lookupTab t (flowKey f) = none → aggregate [f] t u = (t, u + 1))
    ∧ flowKey f = (f.dstPort, protocolStr f.protocol)
    ∧ protocolStr IANAProtocolNum.TCP = "tcp"
    ∧ IANAProtocolNum.ofValue "6" = some IANAProtocolNum.TCP
    ∧ coerceTag (pySplit (tagLineLambda "25,TCP,Email")) = some ⟨25, "tcp", "email"⟩
    ∧ lookupTab (buildTagTable [⟨25, "tcp", "email"⟩]) (25, protocolStr IANAProtocolNum.TCP)
        = some (⟨25, "tcp", "email"⟩, 0) := by
  refine ⟨?_, ?_, rfl, by decide, by decide, by decide, by decide⟩
  · intro hs
    obtain ⟨⟨r, c⟩, hl⟩ := Option.isSome_iff_exists.mp hs
    refine ⟨?_, ?_⟩
    · simp only [aggregate, hl, countAt, lookupTab_incrAt_self t _ r c hl]
    · simp only [aggregate, hl]
  · intro hn
    simp [aggregate, hn]

/-- C3 as amended: a line with the wrong split-field count is skipped
(omitted from the yielded records) and reported by an informational
"Skipping invalid record:" log entry, but contributes neither to the
parser's skip count nor to the final summary counts; only lines whose
field coercion fails contribute to the skip count and are reported by a
per-skip warning entry; the summary entry reports ok, skipped and
total = skipped + ok over those lines only. -/
theorem C3_skip_accounting {α : Type} (coerce : List String → Option α) (n : Nat)
    (cls : String) (lam : String → String) (lines : List String) :
    (genRecord coerce n cls lam lines).records
      = (genFields lam lines).filterMap (fun p => if p.length = n then coerce p else none)
    ∧ (genRecord coerce n cls lam lines).skipped
      = (genFields lam lines).countP (fun p => p.length == n && (coerce p).isNone)
    ∧ infoSkipCount (genRecord coerce n cls lam lines).logs
      = (genFields lam lines).countP (fun p => p.length != n)
    ∧ warnCount (genRecord coerce n cls lam lines).logs
      = (genRecord coerce n cls lam lines).skipped
    ∧ (genRecord coerce n cls lam lines).ok
      = (genRecord coerce n cls lam lines).records.length
    ∧ summaryEntry cls (genRecord coerce n cls lam lines).ok
        (genRecord coerce n cls lam lines).skipped
      ∈ (genRecord coerce n cls lam lines).logs := by
  refine ⟨runParse_records coerce n _, runParse_skipped coerce n _, ?_, ?_,
    runParse_ok coerce n _, ?_⟩
  · have h := runParse_infoSkipCount coerce n (genFields lam lines)
    simpa [genRecord, infoSkipCount, List.countP_cons, List.countP_append,
      msgLeads_header_false, msgLeads_summary_false] using h
  · have h := runParse_warnCount coerce n (genFields lam lines)
    simpa [genRecord, warnCount, List.countP_cons, List.countP_append] using h
  · simp [genRecord]

/-- C3 counterexample: on a tag-mapping file whose single data line
"1,2" has two fields instead of three, the skip count stays 0, no
warning entry is emitted, the wrong-field-count line is reported at info
level, and the summary counts it in neither ok, skipped nor total -
refuting the claim that such a line contributes to the skip count, gets
a per-skip warning entry and is included in the summary counts. -/
theorem C3_skip_accounting_counterexample :
    (tagRun ["Port,Protocol,Tag", "1,2"]).skipped = 0
    ∧ warnCount (tagRun ["Port,Protocol,Tag", "1,2"]).logs = 0
    ∧ infoSkipCount (tagRun ["Port,Protocol,Tag", "1,2"]).logs = 1
    ∧ (tagRun ["Port,Protocol,Tag", "1,2"]).ok = 0
    ∧ summaryEntry "TagRecord" 0 0 ∈ (tagRun ["Port,Protocol,Tag", "1,2"]).logs := by
  decide

/-- C5: the written report is exactly the header line "Tag,Count"
followed by one row per distinct tag (the bucket keys are
duplicate-free and a tag's bucket holds the sum of the counters of all
table keys mapping to it), then the header line "Port,Protocol,Count"
followed by exactly one row per table key, then the single trailing
"Untagged," line - and nothing else. -/
theorem C5_report_format (t : TagTable) (u : Nat) :
    report t u
      = ("Tag,Count" :: (tagCounts t).map fmtTagRow)
        ++ ("Port,Protocol,Count" :: t.map fmtKeyRow)
        ++ ["Untagged," ++ toString u]
    ∧ (∀ tg, lookupStr (tagCounts t) tg
        = if tagMem tg t then some (sumFor tg t) else none)
    ∧ ((tagCounts t).map Prod.fst).Nodup
    ∧ (t.map fmtKeyRow).length = t.length := by
  refine ⟨?_, fun tg => lookupStr_tagCounts t tg,
    tagCountsAux_keys_nodup t [] (by simp), by simp⟩
  simp [report]

/-- C6: a flow-log data line whose field count is not 14, or any of
whose fields fails coercion (such as protocol "99"), yields no record:
removing it changes neither the parsed record list nor any aggregation
result, so every per-key counter and the untagged counter are unchanged
and processing continues with the remaining lines; concretely a 13-field
line and a protocol-99 line both yield none. -/
theorem C6_malformed_flow_line_skipped (hdr line : String) (pre post : List String)
    (t : TagTable) (u : Nat) (h : flowLineRecord line = none) :
    (flowRun (hdr :: (pre ++ line :: post))).records
      = (flowRun (hdr :: (pre ++ post))).records
    ∧ aggregate (flowRun (hdr :: (pre ++ line :: post))).records t u
      = aggregate (flowRun (hdr :: (pre ++ post))).records t u
    ∧ flowLineRecord
        "2,123456789012,eni-0a1b,10.0.0.1,10.0.0.2,443,25,6,10,840,1600000000,1600000060,ACCEPT"
      = none
    ∧ flowLineRecord
        "2,123456789012,eni-0a1b,10.0.0.1,10.0.0.2,443,25,99,10,840,1600000000,1600000060,ACCEPT,OK"
      = none := by
  have hrec : ∀ ls : List String,
      (flowRun (hdr :: ls)).records = ls.filterMap flowLineRecord := by
    intro ls
    have h1 := runParse_records coerceFlow 14 (genFields flowLineLambda (hdr :: ls))
    simpa [genFields, List.filterMap_map, Function.comp, flowLineRecord] using h1
  have heq : (flowRun (hdr :: (pre ++ line :: post))).records
      = (flowRun (hdr :: (pre ++ post))).records := by
    rw [hrec, hrec, List.filterMap_append, List.filterMap_append, List.filterMap_cons, h]
  exact ⟨heq, by rw [heq], by decide, by decide⟩

/-- Witness for C6 at a concrete 13-field line: it contributes no
record. -/
theorem C6_malformed_flow_line_skipped_witness :
    (flowRun ["h",
        "2,123456789012,eni-0a1b,10.0.0.1,10.0.0.2,443,25,6,10,840,1600000000,1600000060,ACCEPT"]).records
      = (flowRun ["h"]).records :=
  (C6_malformed_flow_line_skipped "h"
    "2,123456789012,eni-0a1b,10.0.0.1,10.0.0.2,443,25,6,10,840,1600000000,1600000060,ACCEPT"
    [] [] [] 0 (by decide)).1

/-- C7: a tag-mapping file holding only a header line builds an empty
TagTable, every parsed flow record counts as untagged, and the output is
the two bare section headers followed by the untagged line carrying the
number of parsed flow records. -/
theorem C7_header_only_mapping (hdr : String) (flowLines : List String) :
    (runMain [hdr] flowLines).table = []
    ∧ (runMain [hdr] flowLines).untagged = (flowRun flowLines).records.length
    ∧ (runMain [hdr] flowLines).output
        = ["Tag,Count", "Port,Protocol,Count",
            "Untagged," ++ toString ((flowRun flowLines).records.length)] := by
  have hrec : (tagRun [hdr]).records = [] := rfl
  have hagg := aggregate_nil_table (flowRun flowLines).records 0
  refine ⟨?_, ?_, ?_⟩ <;>
    simp [runMain, hrec, buildTagTable, buildTagTableFrom, hagg, report,
      tagCounts, tagCountsAux]

/-- C8: the entry point prints the usage text to standard output and
exits with status 1, without invoking the pipeline (and so before any
file I/O), whenever the positional-argument count differs from three;
with exactly three positional arguments it runs the pipeline on them. -/
theorem C8_cli_argument_guard (prog : String) (args : List String) :
    (args.length ≠ 3 → cliMain (prog :: args) = CliOutcome.usageExit usageMsg 1)
    ∧ (∀ a b c : String, args = [a, b, c] → cliMain (prog :: args) = CliOutcome.run a b c) := by
  constructor
  · intro h
    rcases args with _ | ⟨a, args⟩
    · rfl
    rcases args with _ | ⟨b, args⟩
    · rfl
    rcases args with _ | ⟨c, args⟩
    · rfl
    rcases args with _ | ⟨d, args⟩
    · simp at h
    · rfl
  · rintro a b c rfl
    rfl

/-- C10: the protocol component of every computed join key is one of the
five canonical strings, and consequently every table entry keyed outside
that set still has counter zero when aggregation ends. -/
theorem C10_protocol_key_range (tagLines flowLines : List String)
    (e : TagKey × (TagRecord × Nat))
    (he : e ∈ (runMain tagLines flowLines).table)
    (hp : e.1.2 ∉ canonicalProtocolNames) :
    e.2.2 = 0 ∧ ∀ p : IANAProtocolNum, protocolStr p ∈ canonicalProtocolNames := by
  refine ⟨?_, protocolStr_mem⟩
  have hz : allCountsZero (buildTagTable (tagRun tagLines).records) :=
    allCountsZero_buildFrom _ _ (fun x hx => absurd hx (List.not_mem_nil x))
  exact aggregate_outside_zero (flowRun flowLines).records
    (buildTagTable (tagRun tagLines).records) 0
    (fun x hx _ => hz x hx) e he hp

/-- C4: when a later tag-mapping record carries the same (dstPort,
protocol) key as an earlier one, only the later record survives the
table build with its counter starting at 0, a subsequent matching flow
record increments exactly that surviving entry to 1 (leaving every
other key and the untagged counter unchanged), and the overwrite is
silent: concretely, duplicate lines "25,tcp,email" and "25,tcp,mail"
parse without any warning and build the one-entry table holding the
later tag. -/
theorem C4_last_write_wins (pre mid post : List TagRecord) (r1 r2 : TagRecord)
    (f : FlowLogRecordV2) (u : Nat)
    (hkey : (r1.dstPort, r1.protocol) = (r2.dstPort, r2.protocol))
    (htag : r1.tag ≠ r2.tag)
    (hpost : ∀ r ∈ post, (r.dstPort, r.protocol) ≠ (r2.dstPort, r2.protocol))
    (hf : flowKey f = (r2.dstPort, r2.protocol)) :
    lookupTab (buildTagTable (pre ++ [r1] ++ mid ++ [r2] ++ post))
        (r2.dstPort, r2.protocol)
      = some (r2, 0)
    ∧ lookupTab
        (aggregate [f] (buildTagTable (pre ++ [r1] ++ mid ++ [r2] ++ post)) u).1
        (r2.dstPort, r2.protocol)
      = some (r2, 1)
    ∧ (∀ k, k ≠ (r2.dstPort, r2.protocol) →
        lookupTab (aggregate [f] (buildTagTable (pre ++ [r1] ++ mid ++ [r2] ++ post)) u).1 k
          = lookupTab (buildTagTable (pre ++ [r1] ++ mid ++ [r2] ++ post)) k)
    ∧ (aggregate [f] (buildTagTable (pre ++ [r1] ++ mid ++ [r2] ++ post)) u).2 = u
    ∧ warnCount (tagRun ["Port,Protocol,Tag", "25,tcp,email", "25,tcp,mail"]).logs = 0
    ∧ (tagRun ["Port,Protocol,Tag", "25,tcp,email", "25,tcp,mail"]).records
        = [⟨25, "tcp", "email"⟩, ⟨25, "tcp", "mail"⟩]
    ∧ buildTagTable [⟨25, "tcp", "email"⟩, ⟨25, "tcp", "mail"⟩]
        = [((25, "tcp"), (⟨25, "tcp", "mail"⟩, 0))] := by
  have hb : lookupTab (buildTagTable (pre ++ [r1] ++ mid ++ [r2] ++ post))
      (r2.dstPort, r2.protocol) = some (r2, 0) := by
    unfold buildTagTable
    rw [buildTagTableFrom_append [] (pre ++ [r1] ++ mid ++ [r2]) post,
      lookupTab_buildFrom_no_key post _ _ hpost,
      buildTagTableFrom_append [] (pre ++ [r1] ++ mid) [r2]]
    exact lookupTab_dictInsert_self _ _ _
  have hstep : aggregate [f] (buildTagTable (pre ++ [r1] ++ mid ++ [r2] ++ post)) u
      = (incrAt (r2.dstPort, r2.protocol)
          (buildTagTable (pre ++ [r1] ++ mid ++ [r2] ++ post)), u) := by
    simp only [aggregate, hf, hb]
  refine ⟨hb, ?_, ?_, ?_, by decide, by decide, by decide⟩
  · rw [hstep]
    exact lookupTab_incrAt_self _ _ _ _ hb
  · intro k hk
    rw [hstep]
    exact lookupTab_incrAt_ne _ _ _ hk
  · rw [hstep]

/-- Witness for C4 at concrete duplicate records (25, "tcp") tagged
"email" then "mail": the build retains the later record with count 0. -/
theorem C4_last_write_wins_witness :
    lookupTab
      (buildTagTable ([] ++ [(⟨25, "tcp", "email"⟩ : TagRecord)] ++ []
        ++ [(⟨25, "tcp", "mail"⟩ : TagRecord)] ++ []))
      (25, "tcp")
      = some (⟨25, "tcp", "mail"⟩, 0) :=
  (C4_last_write_wins [] [] [] ⟨25, "tcp", "email"⟩ ⟨25, "tcp", "mail"⟩
    ⟨2, "a", "e", "s", "d", 443, 25, .TCP, 10, 840, 0, 60, .ACCEPT, .ACCEPT⟩ 0
    (by decide) (by decide) (by simp) (by decide)).1

/-- C9: every tag stored in the final TagTable, and every tag bucket
key written in the "Tag,Count" section, is entirely lowercase, because
the whole mapping line - tag field included - is lowercased before the
split; concretely the line "25,TCP,Email" is transformed to
"25,tcp,email" and its tag appears in the output as "email". -/
theorem C9_tags_lowercased (tagLines flowLines : List String) :
    (∀ e ∈ (runMain tagLines flowLines).table, isLowered e.2.1.tag)
    ∧ (∀ p ∈ tagCounts (runMain tagLines flowLines).table, isLowered p.1)
    ∧ tagLineLambda "25,TCP,Email" = "25,tcp,email"
    ∧ (runMain ["Port,Protocol,Tag", "25,TCP,Email"] ["h"]).output
        = ["Tag,Count", "email,0", "Port,Protocol,Count", "25,tcp,0", "Untagged,0"] := by
  have htab : ∀ e ∈ (runMain tagLines flowLines).table, isLowered e.2.1.tag := by
    have hb : ∀ e ∈ buildTagTable (tagRun tagLines).records, isLowered e.2.1.tag :=
      build_tags_lowered _ [] (fun x hx => absurd hx (List.not_mem_nil x))
        (fun r hr => (tagRun_fields_lowered tagLines r hr).1)
    exact aggregate_tags_lowered (flowRun flowLines).records _ 0 hb
  refine ⟨htab, ?_, by decide, by decide⟩
  exact tagCountsAux_keys_lowered _ [] (fun p hp => absurd hp (List.not_mem_nil p)) htab

/-- Witness for C10: a mapping with the unrecognized protocol string
"foo" sits in the final table with counter zero. -/
theorem C10_protocol_key_range_witness :
    ((((25 : Int), "foo"), ((⟨25, "foo", "x"⟩ : TagRecord), 0)) :
        TagKey × (TagRecord × Nat)).2.2 = 0
    ∧ ∀ p : IANAProtocolNum, protocolStr p ∈ canonicalProtocolNames :=
  C10_protocol_key_range ["Port,Protocol,Tag", "25,foo,x"] ["h"]
    (((25 : Int), "foo"), ((⟨25, "foo", "x"⟩ : TagRecord), 0))
    (by decide) (by decide)

end FlowLogs
